import Mathlib

/-!
Shallow embedding of the scheduling / action-script engine of the
LifePositioningSystem kiosk player (source of authority:
`src/c10/lps-c10-full.py`; the variant `src/c10/gtk-gstreamer-mp4-v11-2.py`
is consulted where a claim cites it).  Python dict state is modelled as
functions into `Option`, `datetime` at seconds resolution as a calendar-day
index plus hour/minute/second, and the two sources of randomness
(`random.randint` in the daily seeding, the substitution inside
`expand_play_random`) as explicit function parameters.
-/

namespace LPS

/-- Pointwise update of a map modelled as a function, mirroring a Python
dict assignment `d[i] = v`. -/
def updF {α : Type} (f : Nat → α) (i : Nat) (v : α) : Nat → α :=
  fun j => if j = i then v else f j

/-- Python truthiness of an optional bool (`self._today_fired.get(idx)`):
`None` and `False` are falsy, `True` is truthy. -/
def truthyOpt (o : Option Bool) : Bool := o.getD false

/-! ## Data model: `ScheduleEntry` (dataclass in the source) -/

/-- `ScheduleEntry` dataclass of `lps-c10-full.py`.  The seven weekday
flags, the jitter bound `random` and `duration` are Python ints (ℤ);
`hour`/`minute` are produced by `_parse_time_field`, hence naturals. -/
structure ScheduleEntry where
  monday : Int
  tuesday : Int
  wednesday : Int
  thursday : Int
  friday : Int
  saturday : Int
  sunday : Int
  hour : Nat
  minute : Nat
  random : Int
  duration : Int
  text : String
  action : String
  data : String
  hour_expr : String := ""
  minute_expr : String := ""
  deriving DecidableEq, Repr

instance : Inhabited ScheduleEntry :=
  ⟨⟨0, 0, 0, 0, 0, 0, 0, 0, 0, 0, 0, "", "", "", "", ""⟩⟩

/-- The list `[e.monday, ..., e.sunday]` built in `_check_and_fire_scheduled`
(Monday first, as `datetime.weekday()` numbers the days). -/
def entryFlags (e : ScheduleEntry) : List Int :=
  [e.monday, e.tuesday, e.wednesday, e.thursday, e.friday, e.saturday, e.sunday]

/-! ## Wall-clock model

`datetime.now()` at seconds resolution (the fire comparison strips
microseconds on both sides).  `day` is a calendar-day index with day 0 a
Monday, so `weekday = day % 7` matches `datetime.weekday()` (Monday = 0). -/

structure DateTime where
  day : Nat
  hour : Nat
  minute : Nat
  second : Nat
  deriving DecidableEq, Repr

def DateTime.weekday (t : DateTime) : Nat := t.day % 7

/-- Absolute seconds of an instant, the semantics of `datetime` equality
and of adding a `timedelta`. -/
def DateTime.absSeconds (t : DateTime) : Nat :=
  ((t.day * 24 + t.hour) * 60 + t.minute) * 60 + t.second

/-- `now.replace(hour=e.hour, minute=e.minute, second=0, microsecond=0)
+ timedelta(minutes=offset_min)` expressed in absolute seconds. -/
def fireAbsSeconds (now : DateTime) (e : ScheduleEntry) (offMin : Nat) : Nat :=
  ((now.day * 24 + e.hour) * 60 + e.minute) * 60 + offMin * 60

/-! ## Calendar expression parser: `_parse_time_field`

`int(...)` on a stripped string: optional sign then a nonempty run of
ASCII digits (Python also strips whitespace inside `int`, accepted below;
underscore digit grouping, an exotic Python literal form, is not
modelled). -/

/-- Python `str.strip()` on the character list of a string. -/
def pyStripChars (cs : List Char) : List Char :=
  ((cs.dropWhile Char.isWhitespace).reverse.dropWhile Char.isWhitespace).reverse

/-- Python `str.strip()`. -/
def pyStrip (s : String) : String := ⟨pyStripChars s.data⟩

def digitsToNat (cs : List Char) : Nat :=
  cs.foldl (fun n c => 10 * n + (c.toNat - 48)) 0

def pyIntChars : List Char → Option Int
  | [] => none
  | '+' :: cs =>
      if cs ≠ [] ∧ cs.all Char.isDigit then some (digitsToNat cs) else none
  | '-' :: cs =>
      if cs ≠ [] ∧ cs.all Char.isDigit then some (-(digitsToNat cs : Int)) else none
  | c :: cs =>
      if (c :: cs).all Char.isDigit then some (digitsToNat (c :: cs)) else none

/-- Python `int(s)` for a decimal string (`int` strips surrounding
whitespace itself): `some n` on success, `none` when a `ValueError`
would be raised. -/
def pyInt (s : String) : Option Int := pyIntChars (pyStripChars s.data)

/-- The four `raise ValueError` sites of `_parse_time_field`. -/
inductive TFErr where
  | invalidStepExpr    -- int(value[2:]) failed
  | invalidStep        -- step <= 0
  | invalidValue       -- int(value) failed
  | outOfRange         -- not (0 <= parsed <= max_value)
  deriving DecidableEq, Repr

instance {ε α : Type} [DecidableEq ε] [DecidableEq α] : DecidableEq (Except ε α) := fun a b =>
  match a, b with
  | .ok x, .ok y =>
      if h : x = y then .isTrue (by rw [h])
      else .isFalse (by intro hc; cases hc; exact h rfl)
  | .error x, .error y =>
      if h : x = y then .isTrue (by rw [h])
      else .isFalse (by intro hc; cases hc; exact h rfl)
  | .ok _, .error _ => .isFalse (by intro hc; cases hc)
  | .error _, .ok _ => .isFalse (by intro hc; cases hc)

/-- Python `range(0, stop, step)` for `step > 0`: the multiples of `step`
below `stop`. -/
def rangeStep (stop step : Nat) : List Nat :=
  (List.range ((stop + step - 1) / step)).map (fun i => step * i)

/-- `_parse_time_field(value, max_value, label)` of `lps-c10-full.py`
(lines 61-81); the label only feeds error messages.  The stripped value
is matched exactly as the Python branches do: empty, `"*"`,
`value.startswith("*/")` (with `int(value[2:])`, where `int` strips
again), and otherwise `int(value)`. -/
def parse_time_field (value : String) (max_value : Nat) : Except TFErr (List Nat) :=
  let v := pyStripChars value.data
  if v = [] then .ok [0]
  else if v = ['*'] then .ok (List.range (max_value + 1))
  else if v.take 2 = ['*', '/'] then
    match pyIntChars (pyStripChars (v.drop 2)) with
    | none => .error .invalidStepExpr
    | some step =>
        if step ≤ 0 then .error .invalidStep
        else .ok (rangeStep (max_value + 1) step.toNat)
  else
    match pyIntChars v with
    | none => .error .invalidValue
    | some parsed =>
        if 0 ≤ parsed ∧ parsed ≤ (max_value : Int) then .ok [parsed.toNat]
        else .error .outOfRange

/-! ## Schedule loading: cartesian expansion of one row (`load_schedule`)

`load_schedule` (lines 123-151) first decodes the row cells (weekday
flags, jitter, duration, texts); the embedding starts from those decoded
cells and models the expansion loop `for hour in hours: for minute in
minutes: entries.append(ScheduleEntry(...))`. -/

/-- The decoded cells of one CSV row, as read before the expansion loop. -/
structure RawRow where
  monday : Int
  tuesday : Int
  wednesday : Int
  thursday : Int
  friday : Int
  saturday : Int
  sunday : Int
  hour_raw : String
  minute_raw : String
  rnd : Int
  dur : Int
  text : String
  action : String
  data : String
  deriving Repr

/-- The `ScheduleEntry(...)` constructor call inside the nested loops. -/
def mkRowEntry (r : RawRow) (hour minute : Nat) : ScheduleEntry :=
  { monday := r.monday, tuesday := r.tuesday, wednesday := r.wednesday,
    thursday := r.thursday, friday := r.friday, saturday := r.saturday,
    sunday := r.sunday, hour := hour, minute := minute, random := r.rnd,
    duration := r.dur, text := r.text, action := r.action, data := r.data,
    hour_expr := pyStrip r.hour_raw, minute_expr := pyStrip r.minute_raw }

/-- Inner loop `for minute in minutes`. -/
def rowInnerLoop (r : RawRow) (hour : Nat) : List Nat → List ScheduleEntry
  | [] => []
  | minute :: ms => mkRowEntry r hour minute :: rowInnerLoop r hour ms

/-- Outer loop `for hour in hours`. -/
def rowOuterLoop (r : RawRow) (minutes : List Nat) : List Nat → List ScheduleEntry
  | [] => []
  | hour :: hs => rowInnerLoop r hour minutes ++ rowOuterLoop r minutes hs

/-- Row expansion of `load_schedule`: parse the hour and minute fields,
then append one entry per (hour, minute) combination.  A parse failure
makes the row contribute nothing (the `except` clause logs and skips the
row). -/
def expand_row (r : RawRow) : Except TFErr (List ScheduleEntry) := do
  let hours ← parse_time_field r.hour_raw 23
  let minutes ← parse_time_field r.minute_raw 59
  pure (rowOuterLoop r minutes hours)

/-! ## Daily state: `_seed_today_offsets` and `_check_and_fire_scheduled` -/

/-- The per-day bookkeeping owned by the player: `self._today_offsets`
and `self._today_fired` (Python dicts keyed by entry index). -/
structure DayState where
  offsets : Nat → Option Nat
  fired : Nat → Option Bool

/-- The fresh dictionaries after `clear()` (or at construction). -/
def DayState.empty : DayState := ⟨fun _ => none, fun _ => none⟩

/-- One iteration of the seeding loop body for entry `e` at index `idx`:
sample an offset if the index is absent, then unconditionally set
`self._today_fired[idx] = False`.  `sample idx` stands for the value
`random.randint(0, rnd)` would return for this index on this call. -/
def seedEntry (sample : Nat → Nat) (idx : Nat) (e : ScheduleEntry) (s : DayState) : DayState :=
  let s1 :=
    if (s.offsets idx).isNone then
      let rnd := (max 0 e.random).toNat
      { s with offsets := updF s.offsets idx (some (if 0 < rnd then sample idx else 0)) }
    else s
  { s1 with fired := updF s1.fired idx (some false) }

/-- The loop `for idx, e in enumerate(self.schedule)` of
`_seed_today_offsets`, started at index `i`. -/
def seedFrom (sample : Nat → Nat) : List ScheduleEntry → Nat → DayState → DayState
  | [], _, s => s
  | e :: rest, i, s => seedFrom sample rest (i + 1) (seedEntry sample i e s)

/-- `_seed_today_offsets(force=False)` (lines 944-953): keep existing
offsets, (re)set every fired flag to `False`. -/
def seed_today_offsets (sample : Nat → Nat) (schedule : List ScheduleEntry)
    (s : DayState) : DayState :=
  seedFrom sample schedule 0 s

/-- `_seed_today_offsets(force=True)`: clear both dicts first. -/
def seed_today_offsets_force (sample : Nat → Nat) (schedule : List ScheduleEntry) : DayState :=
  seedFrom sample schedule 0 DayState.empty

/-- The fire condition tested for index `idx` inside
`_check_and_fire_scheduled` of `lps-c10-full.py` (lines 955-981): weekday
flag truthy, not yet fired, and `now.replace(microsecond=0)` **equal** to
`now.replace(hour=e.hour, minute=e.minute, second=0, microsecond=0) +
timedelta(minutes=offset_min)`. -/
def fireCondCode (s : DayState) (now : DateTime) (idx : Nat) (e : ScheduleEntry) : Prop :=
  (entryFlags e).getD now.weekday 0 ≠ 0 ∧
  truthyOpt (s.fired idx) = false ∧
  now.absSeconds = fireAbsSeconds now e ((s.offsets idx).getD 0)

instance (s : DayState) (now : DateTime) (idx : Nat) (e : ScheduleEntry) :
    Decidable (fireCondCode s now idx e) := by
  unfold fireCondCode; infer_instance

/-- The fire condition as the spec words it (threshold semantics): the
instant has been **reached or passed**.  This definition follows the
spec's sentence, for comparison with `fireCondCode`. -/
def fireCondSpec (s : DayState) (now : DateTime) (idx : Nat) (e : ScheduleEntry) : Prop :=
  (entryFlags e).getD now.weekday 0 ≠ 0 ∧
  truthyOpt (s.fired idx) = false ∧
  fireAbsSeconds now e ((s.offsets idx).getD 0) ≤ now.absSeconds

instance (s : DayState) (now : DateTime) (idx : Nat) (e : ScheduleEntry) :
    Decidable (fireCondSpec s now idx e) := by
  unfold fireCondSpec; infer_instance

/-- The loop of `_check_and_fire_scheduled`, started at index `i`:
returns the updated fired map together with the list of indices that
fired during this pass (each such entry shows its toast and runs its
action). -/
def checkFrom (offsets : Nat → Option Nat) (now : DateTime) :
    List ScheduleEntry → Nat → (Nat → Option Bool) → ((Nat → Option Bool) × List Nat)
  | [], _, f => (f, [])
  | e :: rest, i, f =>
      if fireCondCode ⟨offsets, f⟩ now i e then
        let out := checkFrom offsets now rest (i + 1) (updF f i (some true))
        (out.1, i :: out.2)
      else
        checkFrom offsets now rest (i + 1) f

/-- `_check_and_fire_scheduled(now)` over the whole schedule. -/
def check_and_fire_scheduled (schedule : List ScheduleEntry) (s : DayState)
    (now : DateTime) : (Nat → Option Bool) × List Nat :=
  checkFrom s.offsets now schedule 0 s.fired

/-- The fired map and the concatenated fire events of a sequence of
scheduler ticks (repeated `_check_and_fire_scheduled` passes over the
same schedule and offsets, as the 1 Hz `tick` does within one day). -/
def ticksFrom (schedule : List ScheduleEntry) (offsets : Nat → Option Nat) :
    List DateTime → (Nat → Option Bool) → ((Nat → Option Bool) × List Nat)
  | [], f => (f, [])
  | now :: rest, f =>
      let out := checkFrom offsets now schedule 0 f
      let out2 := ticksFrom schedule offsets rest out.1
      (out2.1, out.2 ++ out2.2)

/-- The jitter bound `rnd = max(0, int(e.random or 0))` of the entry at
index `i`. -/
def jitterBound (schedule : List ScheduleEntry) (i : Nat) : Nat :=
  (max 0 ((schedule.getD i default).random)).toNat

/-! ## Action script interpreter: `run_action` / `_run_steps_chain`

A script step is a JSON object; the code accepts it only when it has
exactly one key (`(op, val), = step.items()`), so a step is modelled as
its item list.  `GLib.idle_add` continuations and `timeout_add_seconds`
timers are modelled as the outcome of processing one step. -/

/-- One decoded step of `script.json`: the items of the step dict. -/
def ScriptStep := List (String × String)

/-- What `_run_steps_chain` schedules when it returns. -/
inductive StepOutcome where
  | finished
      -- `idx >= len(steps)`: chain complete
  | deferred (next : Nat)
      -- `GLib.idle_add(self._run_steps_chain, steps, idx + 1)`
  | waiting (seconds : Nat) (next : Nat)
      -- timer armed by `GLib.timeout_add_seconds(seconds, self._after_wait_continue, steps, idx + 1)`
  deriving DecidableEq, Repr

/-- Interpreter state mutated by `_run_steps_chain`:
`_action_running`, `_current_action_name`, `_step_timer_source` (the
armed timer, kept with its duration and continuation index). -/
structure ActionState where
  action_running : Bool
  current_action_name : Option String
  step_timer : Option (Nat × Nat)
  deriving DecidableEq, Repr

/-- Externally visible effects of processing one step. -/
structure StepEffects where
  enqueued : List String   -- arguments passed to self.enqueue_file
  toasts : List String     -- arguments passed to self.show_toast
  deriving DecidableEq, Repr

def StepEffects.none : StepEffects := ⟨[], []⟩

/-- `m = re.search(r"(\d+)", str(val).lower()); int(m.group(1)) if m
else 0`: the first maximal run of digits in the value, else 0. -/
def firstNumber : List Char → Nat
  | [] => 0
  | c :: cs =>
      if c.isDigit then digitsToNat (c :: cs.takeWhile Char.isDigit)
      else firstNumber cs

def waitValueMinutes (val : String) : Nat := firstNumber val.data

/-- `str.strip().upper()` applied to an op key (ASCII upper). -/
def opUpper (op : String) : String := ⟨(pyStripChars op.data).map Char.toUpper⟩

/-- One call of `_run_steps_chain(steps, idx)` (lines 997-1044 of
`lps-c10-full.py`).  `expandRandom` stands for `expand_play_random`, whose
random range substitution is a source of randomness supplied as a
parameter. -/
def run_steps_chain (expandRandom : String → String) (steps : List ScriptStep)
    (idx : Nat) (s : ActionState) : ActionState × StepEffects × StepOutcome :=
  if steps.length ≤ idx then
    ({ s with action_running := false, current_action_name := Option.none },
     StepEffects.none, .finished)
  else
    -- the bounds check guarantees `steps.get? idx` is `some`; a step dict
    -- with item count ≠ 1 is the malformed case (skipped)
    match steps.get? idx with
    | some [(op, val)] =>
        let op_u := opUpper op
        if op_u = "PLAY" then
          (s, ⟨[val], []⟩, .deferred (idx + 1))
        else if op_u = "PLAY-RANDOM" then
          (s, ⟨[expandRandom val], []⟩, .deferred (idx + 1))
        else if op_u = "WAIT" then
          let seconds := waitValueMinutes val * 60
          -- `self._cancel_step_timer()` then arm the new timer
          ({ s with step_timer := some (seconds, idx + 1) },
           StepEffects.none, .waiting seconds (idx + 1))
        else if op_u = "TOAST-MESSAGE" then
          (s, ⟨[], [val]⟩, .deferred (idx + 1))
        else
          -- unknown op -> skip
          (s, StepEffects.none, .deferred (idx + 1))
    | _ =>
        -- malformed step ignored
        (s, StepEffects.none, .deferred (idx + 1))

/-- `_after_wait_continue(steps, next_idx)`: drop the timer handle and
continue the chain at `next_idx`. -/
def after_wait_continue (expandRandom : String → String) (steps : List ScriptStep)
    (next_idx : Nat) (s : ActionState) : ActionState × StepEffects × StepOutcome :=
  run_steps_chain expandRandom steps next_idx { s with step_timer := Option.none }

/-- `run_action(action_name)` (lines 985-995): look the name up in
`self.actions_script`; a missing or empty step list is a no-op
(`if not steps`); otherwise mark the action running, record its name and
start the chain at step 0.  The returned `Bool` reports whether the
action started. -/
def run_action (actions : String → Option (List ScriptStep)) (name : String)
    (s : ActionState) : ActionState × Bool :=
  match actions name with
  | Option.none => (s, false)
  | some [] => (s, false)
  | some (_ :: _) =>
      ({ s with action_running := true, current_action_name := some name }, true)

/-! ## Manual triggers: `_play_manual_action_once`

Timestamps are integer microseconds (the resolution of `datetime`);
`timedelta(seconds=1)` is 1000000 microseconds. -/

/-- `self._manual_action_last_trigger` plus the interpreter flags that
`_play_manual_action_once` reads. -/
structure ManualState where
  last_trigger : String → Option Int
  interp : ActionState

/-- `last_trigger and (now - last_trigger) < timedelta(seconds=1)`:
a `None` record is falsy, otherwise the strict sub-second comparison. -/
def debounce_check (s : ManualState) (name : String) (now : Int) : Bool :=
  match s.last_trigger name with
  | some t => decide (now - t < 1000000)
  | Option.none => false

/-- `_play_manual_action_once(action_name)` (lines 759-772) at instant
`now`: debounce repeats of the same name within 1 second, skip when the
tracked running action has this very name, otherwise record the trigger
instant and call `run_action`.  The `Bool` reports whether `run_action`
started the action. -/
def play_manual_action_once (actions : String → Option (List ScriptStep))
    (name : String) (now : Int) (s : ManualState) : ManualState × Bool :=
  if debounce_check s name now then (s, false)
  else if s.interp.action_running = true ∧ s.interp.current_action_name = some name then
    (s, false)
  else
    let s' := { s with last_trigger := fun n => if n = name then some now else s.last_trigger n }
    let out := run_action actions name s'.interp
    ({ s' with interp := out.1 }, out.2)

/-! ## Playback queue: `enqueue_file`, `play_file`, `try_play_next_in_queue`

`ex path` stands for `os.path.exists(path)`; an empty path is falsy
(`if not path or not os.path.exists(path)`). -/

/-- `self.play_queue` and `self._playing`. -/
structure QState where
  queue : List String
  playing : Bool
  deriving DecidableEq, Repr

/-- Result of a queue operation: the new state, the paths handed to the
media player (successful `play_file` calls, in order), and whether
`stop_to_clock` ran (return to the idle clock display). -/
structure QResult where
  state : QState
  played : List String
  went_idle : Bool
  deriving DecidableEq, Repr

mutual

/-- `play_file(path)` (lines 680-694): a missing path logs an error and
falls through to `try_play_next_in_queue`; otherwise the path is handed
to the GStreamer pipeline and `_playing` is set. -/
def play_file (ex : String → Bool) (path : String) (σ : QState) : QResult :=
  if path.isEmpty || !ex path then
    try_play_next_in_queue ex σ
  else
    { state := { σ with playing := true }, played := [path], went_idle := false }
  termination_by 2 * σ.queue.length + 1
  decreasing_by simp_wf

/-- `try_play_next_in_queue()` (lines 696-702): pop the head of the
queue and play it, or mark not-playing and return to the clock. -/
def try_play_next_in_queue (ex : String → Bool) (σ : QState) : QResult :=
  match h : σ.queue with
  | next_path :: rest => play_file ex next_path { σ with queue := rest }
  | [] => { state := { σ with playing := false }, played := [], went_idle := true }
  termination_by 2 * σ.queue.length
  decreasing_by simp_wf; rw [h]; simp [Nat.mul_succ]

end

/-- `enqueue_file(path)` (lines 658-667): a missing path is skipped;
otherwise play immediately when idle, else append to the queue tail. -/
def enqueue_file (ex : String → Bool) (path : String) (σ : QState) : QResult :=
  if path.isEmpty || !ex path then
    { state := σ, played := [], went_idle := false }
  else if !σ.playing then
    play_file ex path σ
  else
    { state := { σ with queue := σ.queue ++ [path] }, played := [], went_idle := false }

/-- `on_eos` / `on_error` (lines 712-721): clear `_playing`, then hand
over to `try_play_next_in_queue`. -/
def on_playback_done (ex : String → Bool) (σ : QState) : QResult :=
  try_play_next_in_queue ex { σ with playing := false }

/-! ## Helper lemmas -/

@[simp] theorem updF_same {α : Type} (f : Nat → α) (i : Nat) (v : α) :
    updF f i v i = v := by simp [updF]

theorem updF_other {α : Type} (f : Nat → α) {i j : Nat} (v : α) (h : j ≠ i) :
    updF f i v j = f j := by simp [updF, h]

theorem updF_self {α : Type} (f : Nat → α) (i : Nat) (v : α) (h : f i = v) :
    updF f i v = f := by
  funext j
  by_cases hj : j = i
  · subst hj; simp [updF, h]
  · simp [updF, hj]

@[simp] theorem truthyOpt_none : truthyOpt none = false := rfl
@[simp] theorem truthyOpt_some (b : Bool) : truthyOpt (some b) = b := rfl

example : parse_time_field "*/15" 59 = .ok [0, 15, 30, 45] := by decide
example : parse_time_field "7" 23 = .ok [7] := by decide
example : parse_time_field "99" 23 = .error .outOfRange := by decide
example : parse_time_field "" 23 = .ok [0] := by decide
example : parse_time_field "*" 5 = .ok [0, 1, 2, 3, 4, 5] := by decide
example : parse_time_field "*/0" 59 = .error .invalidStep := by decide
example : parse_time_field "x" 59 = .error .invalidValue := by decide

theorem rowInnerLoop_length (r : RawRow) (h : Nat) (ms : List Nat) :
    (rowInnerLoop r h ms).length = ms.length := by
  induction ms with
  | nil => rfl
  | cons m ms ih => simp [rowInnerLoop, ih]

theorem rowOuterLoop_length (r : RawRow) (ms hs : List Nat) :
    (rowOuterLoop r ms hs).length = hs.length * ms.length := by
  induction hs with
  | nil => simp [rowOuterLoop]
  | cons h hs ih =>
      simp [rowOuterLoop, List.length_append, rowInnerLoop_length, ih,
        Nat.succ_mul, Nat.add_comm]

theorem mem_rowInnerLoop {r : RawRow} {h : Nat} {ms : List Nat} {e : ScheduleEntry} :
    e ∈ rowInnerLoop r h ms ↔ ∃ m ∈ ms, e = mkRowEntry r h m := by
  induction ms with
  | nil => simp [rowInnerLoop]
  | cons m ms ih => simp [rowInnerLoop, ih, or_and_right, exists_or, eq_comm]

theorem mem_rowOuterLoop {r : RawRow} {ms hs : List Nat} {e : ScheduleEntry} :
    e ∈ rowOuterLoop r ms hs ↔ ∃ h ∈ hs, ∃ m ∈ ms, e = mkRowEntry r h m := by
  induction hs with
  | nil => simp [rowOuterLoop]
  | cons h hs ih =>
      simp [rowOuterLoop, List.mem_append, mem_rowInnerLoop, ih, or_and_right, exists_or]

theorem mem_rangeStep {stop step x : Nat} (hstep : 0 < step) :
    x ∈ rangeStep stop step ↔ step ∣ x ∧ x < stop := by
  unfold rangeStep
  simp only [List.mem_map, List.mem_range]
  constructor
  · rintro ⟨i, hi, rfl⟩
    refine ⟨Dvd.intro i rfl, ?_⟩
    have h2 : (i + 1) * step ≤ stop + step - 1 :=
      (Nat.le_div_iff_mul_le hstep).mp hi
    rw [Nat.succ_mul] at h2
    have hcomm : step * i = i * step := Nat.mul_comm step i
    omega
  · rintro ⟨⟨i, rfl⟩, hx⟩
    refine ⟨i, ?_, rfl⟩
    have hcomm : step * i = i * step := Nat.mul_comm step i
    have h2 : (i + 1) * step ≤ stop + step - 1 := by rw [Nat.succ_mul]; omega
    exact Nat.lt_of_succ_le ((Nat.le_div_iff_mul_le hstep).mpr h2)

/-! ## Claim theorems -/

theorem parse_time_field_star_slash (value : String) (max_value : Nat) (rest : List Char)
    (hv : pyStripChars value.data = '*' :: '/' :: rest) :
    parse_time_field value max_value =
      match pyIntChars (pyStripChars rest) with
      | Option.none => .error .invalidStepExpr
      | some step =>
          if step ≤ 0 then .error .invalidStep
          else .ok (rangeStep (max_value + 1) step.toNat) := by
  simp only [parse_time_field]
  rw [hv]
  rfl

theorem parse_time_field_default (value : String) (max_value : Nat)
    (h1 : pyStripChars value.data ≠ []) (h2 : pyStripChars value.data ≠ ['*'])
    (h3 : (pyStripChars value.data).take 2 ≠ ['*', '/']) :
    parse_time_field value max_value =
      match pyIntChars (pyStripChars value.data) with
      | Option.none => .error .invalidValue
      | some parsed =>
          if 0 ≤ parsed ∧ parsed ≤ (max_value : Int) then .ok [parsed.toNat]
          else .error .outOfRange := by
  simp only [parse_time_field]
  rw [if_neg h1, if_neg h2, if_neg h3]

/-- C4: for every field string and bound, `_parse_time_field` yields
`{0}` on a blank input; `{0..maxValue}` on `"*"`; on `"*/N"` with integer
`N > 0` the multiples of `N` within `[0, maxValue]`, and an error when
`N ≤ 0` (or when the part after `*/` is not an integer); on a plain
integer literal `v` the singleton `{v}` when `0 ≤ v ≤ maxValue` and an
out-of-range error otherwise; and an invalid-expression error on any
other form. -/
theorem C4_parse_time_field_spec (value : String) (max_value : Nat) :
    (pyStripChars value.data = [] → parse_time_field value max_value = .ok [0]) ∧
    (pyStripChars value.data = ['*'] →
      parse_time_field value max_value = .ok (List.range (max_value + 1)) ∧
      ∀ x, x ∈ List.range (max_value + 1) ↔ x ≤ max_value) ∧
    (∀ rest, pyStripChars value.data = '*' :: '/' :: rest →
      (∀ n : Int, pyIntChars (pyStripChars rest) = some n →
        (0 < n → ∃ l, parse_time_field value max_value = .ok l ∧
          ∀ x, x ∈ l ↔ (n.toNat ∣ x ∧ x ≤ max_value)) ∧
        (n ≤ 0 → parse_time_field value max_value = .error .invalidStep)) ∧
      (pyIntChars (pyStripChars rest) = Option.none →
        parse_time_field value max_value = .error .invalidStepExpr)) ∧
    (pyStripChars value.data ≠ [] → pyStripChars value.data ≠ ['*'] →
      (∀ rest, pyStripChars value.data ≠ '*' :: '/' :: rest) →
      (∀ n : Int, pyIntChars (pyStripChars value.data) = some n →
        (0 ≤ n ∧ n ≤ (max_value : Int) →
          parse_time_field value max_value = .ok [n.toNat]) ∧
        (¬(0 ≤ n ∧ n ≤ (max_value : Int)) →
          parse_time_field value max_value = .error .outOfRange)) ∧
      (pyIntChars (pyStripChars value.data) = Option.none →
        parse_time_field value max_value = .error .invalidValue)) := by
  refine ⟨?_, ?_, ?_, ?_⟩
  · intro hv; simp [parse_time_field, hv]
  · intro hv
    refine ⟨by simp [parse_time_field, hv], ?_⟩
    intro x; simp [List.mem_range, Nat.lt_succ_iff]
  · intro rest hv
    rw [parse_time_field_star_slash value max_value rest hv]
    constructor
    · intro n hn
      constructor
      · intro hpos
        have hng : ¬ n ≤ 0 := by omega
        refine ⟨rangeStep (max_value + 1) n.toNat, by simp [hn, hng], ?_⟩
        intro x
        have htn : 0 < n.toNat := by omega
        rw [mem_rangeStep htn, Nat.lt_succ_iff]
      · intro hle
        simp [hn, hle]
    · intro hn
      simp [hn]
  · intro h1 h2 h3
    have h3' : (pyStripChars value.data).take 2 ≠ ['*', '/'] := by
      intro hT
      exact h3 ((pyStripChars value.data).drop 2)
        ((List.take_append_drop 2 (pyStripChars value.data)).symm.trans
          (by rw [hT]; rfl))
    rw [parse_time_field_default value max_value h1 h2 h3']
    constructor
    · intro n hn
      constructor
      · intro hin
        simp [hn, hin]
      · intro hout
        simp [hn, hout]
    · intro hn
      simp [hn]

theorem C4_parse_time_field_spec_witness :
    (∃ l, parse_time_field "*/15" 59 = .ok l ∧
      ∀ x, x ∈ l ↔ (((15 : Int).toNat) ∣ x ∧ x ≤ 59)) ∧
    parse_time_field "" 23 = .ok [0] := by
  constructor
  · exact (((C4_parse_time_field_spec "*/15" 59).2.2.1 "15".data
      (by decide)).1 15 (by decide)).1 (by decide)
  · exact (C4_parse_time_field_spec "" 23).1 (by decide)

/-- C3: a schedule row whose hour and minute fields parse to `H` and `M`
expands to exactly `|H| * |M|` entries, one per (hour, minute) pair of the
cartesian product, all sharing the row's weekday flags, jitter bound,
duration, toast text, action name and tag. -/
theorem C3_row_expansion (r : RawRow) (H M : List Nat)
    (hH : parse_time_field r.hour_raw 23 = .ok H)
    (hM : parse_time_field r.minute_raw 59 = .ok M) :
    ∃ es, expand_row r = .ok es ∧
      es.length = H.length * M.length ∧
      (∀ e ∈ es, e.monday = r.monday ∧ e.tuesday = r.tuesday ∧
        e.wednesday = r.wednesday ∧ e.thursday = r.thursday ∧
        e.friday = r.friday ∧ e.saturday = r.saturday ∧ e.sunday = r.sunday ∧
        e.random = r.rnd ∧ e.duration = r.dur ∧ e.text = r.text ∧
        e.action = r.action ∧ e.data = r.data ∧ e.hour ∈ H ∧ e.minute ∈ M) ∧
      (∀ h ∈ H, ∀ m ∈ M, mkRowEntry r h m ∈ es) := by
  refine ⟨rowOuterLoop r M H, ?_, rowOuterLoop_length r M H, ?_, ?_⟩
  · simp only [expand_row, hH, hM]; rfl
  · intro e he
    rcases mem_rowOuterLoop.mp he with ⟨h, hh, m, hm, rfl⟩
    exact ⟨rfl, rfl, rfl, rfl, rfl, rfl, rfl, rfl, rfl, rfl, rfl, rfl, hh, hm⟩
  · intro h hh m hm
    exact mem_rowOuterLoop.mpr ⟨h, hh, m, hm, rfl⟩

theorem C3_row_expansion_witness :
    ∃ es, expand_row ⟨1, 0, 0, 0, 0, 0, 0, "9", "*/30", 5, 60, "t", "a", "FF"⟩ = .ok es ∧
      es.length = 1 * 2 := by
  obtain ⟨es, h1, h2, -, -⟩ :=
    C3_row_expansion ⟨1, 0, 0, 0, 0, 0, 0, "9", "*/30", 5, 60, "t", "a", "FF"⟩
      [9] [0, 30] (by decide) (by decide)
  exact ⟨es, h1, h2⟩

/-- C1: the claim (and the comment inside `_check_and_fire_scheduled`
itself: "If schedule time already passed before we started the app today,
still run it when we catch up") requires threshold `>=` semantics, but the
code of `lps-c10-full.py` compares with exact equality `now_no_ms ==
fire_dt`.  At 09:00:01 (first tick strictly after the 09:00:00 fire
instant of an all-weekday entry with zero offset) the spec condition
holds, the code condition does not, and the pass fires nothing — while
at 09:00:00 sharp the same pass does fire index 0.  (The sibling variant
`gtk-gstreamer-mp4-v11-2.py` tries `>=` but compares a `strftime` string
against a `datetime`, a `TypeError` at runtime.) -/
theorem C1_exact_match_misses_catch_up :
    fireCondSpec ⟨fun _ => some 0, fun _ => some false⟩ ⟨0, 9, 0, 1⟩ 0
        ⟨1, 1, 1, 1, 1, 1, 1, 9, 0, 0, 60, "", "", "", "", ""⟩ ∧
    ¬ fireCondCode ⟨fun _ => some 0, fun _ => some false⟩ ⟨0, 9, 0, 1⟩ 0
        ⟨1, 1, 1, 1, 1, 1, 1, 9, 0, 0, 60, "", "", "", "", ""⟩ ∧
    (check_and_fire_scheduled [⟨1, 1, 1, 1, 1, 1, 1, 9, 0, 0, 60, "", "", "", "", ""⟩]
        ⟨fun _ => some 0, fun _ => some false⟩ ⟨0, 9, 0, 1⟩).2 = [] ∧
    (check_and_fire_scheduled [⟨1, 1, 1, 1, 1, 1, 1, 9, 0, 0, 60, "", "", "", "", ""⟩]
        ⟨fun _ => some 0, fun _ => some false⟩ ⟨0, 9, 0, 0⟩).2 = [0] := by
  refine ⟨by decide, by decide, ?_, ?_⟩
  · rfl
  · rfl

/-! ### Seeding lemmas (`_seed_today_offsets`) -/

theorem seedEntry_offsets_keep {sample : Nat → Nat} {idx : Nat} {e : ScheduleEntry}
    {s : DayState} {i : Nat} {v : Nat} (h : s.offsets i = some v) :
    (seedEntry sample idx e s).offsets i = some v := by
  unfold seedEntry
  by_cases hn : (s.offsets idx).isNone
  · simp only [hn, if_true]
    by_cases hi : i = idx
    · subst hi; rw [h] at hn; simp at hn
    · simpa [updF_other _ _ hi] using h
  · simpa [hn] using h

theorem seedEntry_other {sample : Nat → Nat} {idx : Nat} {e : ScheduleEntry}
    {s : DayState} {j : Nat} (hj : j ≠ idx) :
    (seedEntry sample idx e s).offsets j = s.offsets j ∧
    (seedEntry sample idx e s).fired j = s.fired j := by
  unfold seedEntry
  by_cases hn : (s.offsets idx).isNone <;>
    simp [hn, updF_other _ _ hj]

theorem seedEntry_at {sample : Nat → Nat} {idx : Nat} {e : ScheduleEntry}
    {s : DayState} :
    (seedEntry sample idx e s).fired idx = some false ∧
    (s.offsets idx = none →
      (seedEntry sample idx e s).offsets idx =
        some (if 0 < (max 0 e.random).toNat then sample idx else 0)) := by
  unfold seedEntry
  constructor
  · by_cases hn : (s.offsets idx).isNone <;> simp [hn]
  · intro h0
    simp [h0]

theorem seedFrom_untouched_lt (sample : Nat → Nat) (es : List ScheduleEntry) :
    ∀ i0 s j, j < i0 →
      (seedFrom sample es i0 s).offsets j = s.offsets j ∧
      (seedFrom sample es i0 s).fired j = s.fired j := by
  induction es with
  | nil => intro i0 s j _; exact ⟨rfl, rfl⟩
  | cons e rest ih =>
      intro i0 s j hj
      have hne : j ≠ i0 := Nat.ne_of_lt hj
      have h1 := @seedEntry_other sample i0 e s j hne
      have h2 := ih (i0 + 1) (seedEntry sample i0 e s) j (Nat.lt_succ_of_lt hj)
      exact ⟨h2.1.trans h1.1, h2.2.trans h1.2⟩

theorem seedFrom_offsets_keep (sample : Nat → Nat) (es : List ScheduleEntry) :
    ∀ i0 s i v, s.offsets i = some v →
      (seedFrom sample es i0 s).offsets i = some v := by
  induction es with
  | nil => intro i0 s i v h; exact h
  | cons e rest ih =>
      intro i0 s i v h
      exact ih (i0 + 1) _ i v (seedEntry_offsets_keep h)

theorem seedFrom_at (sample : Nat → Nat) (es : List ScheduleEntry) :
    ∀ i0 s k, k < es.length →
      (seedFrom sample es i0 s).fired (i0 + k) = some false ∧
      (s.offsets (i0 + k) = none →
        (seedFrom sample es i0 s).offsets (i0 + k) =
          some (if 0 < (max 0 (es.getD k default).random).toNat
                then sample (i0 + k) else 0)) := by
  induction es with
  | nil => intro i0 s k hk; simp at hk
  | cons e rest ih =>
      intro i0 s k hk
      cases k with
      | zero =>
          have hat := @seedEntry_at sample i0 e s
          have hlt := seedFrom_untouched_lt sample rest (i0 + 1)
            (seedEntry sample i0 e s) i0 (Nat.lt_succ_self i0)
          refine ⟨?_, ?_⟩
          · simpa [seedFrom] using hlt.2.trans hat.1
          · intro h0
            have := hat.2 h0
            simpa [seedFrom] using hlt.1.trans this
      | succ k' =>
          have hne : i0 + (k' + 1) ≠ i0 := by omega
          have hother := @seedEntry_other sample i0 e s (i0 + (k' + 1)) hne
          have hk' : k' < rest.length := by simpa using Nat.lt_of_succ_lt_succ hk
          have := ih (i0 + 1) (seedEntry sample i0 e s) k' hk'
          have harith : i0 + 1 + k' = i0 + (k' + 1) := by omega
          rw [harith] at this
          refine ⟨by simpa [seedFrom] using this.1, ?_⟩
          · intro h0
            have h0' : (seedEntry sample i0 e s).offsets (i0 + (k' + 1)) = none :=
              hother.1.trans h0
            simpa [seedFrom] using this.2 h0'

theorem seedFrom_noop (sample : Nat → Nat) (es : List ScheduleEntry) :
    ∀ i0 s,
      (∀ k, k < es.length → ((s.offsets (i0 + k)).isSome ∧ s.fired (i0 + k) = some false)) →
      seedFrom sample es i0 s = s := by
  induction es with
  | nil => intro i0 s _; rfl
  | cons e rest ih =>
      intro i0 s hfacts
      have h0 := hfacts 0 (by simp)
      rw [Nat.add_zero] at h0
      have hentry : seedEntry sample i0 e s = s := by
        unfold seedEntry
        have hnotnone : ¬ (s.offsets i0).isNone := by
          rcases Option.isSome_iff_exists.mp h0.1 with ⟨v, hv⟩
          simp [hv]
        rw [if_neg hnotnone]
        show ({ offsets := s.offsets, fired := updF s.fired i0 (some false) } : DayState) = s
        rw [updF_self _ _ _ h0.2]
      rw [seedFrom, hentry]
      refine ih (i0 + 1) s ?_
      intro k hk
      have := hfacts (k + 1) (by simpa using Nat.succ_lt_succ hk)
      have harith : i0 + (k + 1) = i0 + 1 + k := by omega
      rwa [harith] at this

/-- C5: for a fixed day, `_seed_today_offsets` never re-samples an offset
that is already present; on a fresh day it samples, for every entry
index, a value within `[0, jitterBound]` that is 0 when the bound is 0
(given that `random.randint(0, rnd)` honours its contract, stated as the
hypothesis on `sample1`); and re-seeding immediately after a seeding is a
no-op: the offsets and fired maps are identical. -/
theorem C5_seed_idempotent_and_bounded (schedule : List ScheduleEntry)
    (sample1 sample2 : Nat → Nat) (s : DayState)
    (hs : ∀ i, sample1 i ≤ jitterBound schedule i) :
    (∀ i v, s.offsets i = some v →
      (seed_today_offsets sample2 schedule s).offsets i = some v) ∧
    (∀ i, i < schedule.length →
      ∃ v, (seed_today_offsets_force sample1 schedule).offsets i = some v ∧
        v ≤ jitterBound schedule i ∧ (jitterBound schedule i = 0 → v = 0)) ∧
    (seed_today_offsets sample2 schedule (seed_today_offsets sample1 schedule s) =
      seed_today_offsets sample1 schedule s) := by
  refine ⟨?_, ?_, ?_⟩
  · intro i v hv
    exact seedFrom_offsets_keep sample2 schedule 0 s i v hv
  · intro i hi
    have h := (seedFrom_at sample1 schedule 0 DayState.empty i hi).2 rfl
    rw [Nat.zero_add] at h
    by_cases hpos : 0 < (max 0 ((schedule.getD i default)).random).toNat
    · refine ⟨sample1 i, ?_, hs i, ?_⟩
      · show (seedFrom sample1 schedule 0 DayState.empty).offsets i = some (sample1 i)
        rw [h, if_pos hpos]
      · intro hb
        exfalso
        unfold jitterBound at hb
        omega
    · refine ⟨0, ?_, Nat.zero_le _, fun _ => rfl⟩
      show (seedFrom sample1 schedule 0 DayState.empty).offsets i = some 0
      rw [h, if_neg hpos]
  · apply seedFrom_noop
    intro k hk
    rw [Nat.zero_add]
    constructor
    · cases ho : s.offsets k with
      | none =>
          have := (seedFrom_at sample1 schedule 0 s k hk).2 (by simpa using ho)
          rw [Nat.zero_add] at this
          simp [seed_today_offsets, this]
      | some v =>
          have := seedFrom_offsets_keep sample1 schedule 0 s k v ho
          simp [seed_today_offsets, this]
    · have := (seedFrom_at sample1 schedule 0 s k hk).1
      rw [Nat.zero_add] at this
      exact this

theorem C5_seed_idempotent_and_bounded_witness :
    ∃ v, (seed_today_offsets_force (fun _ => 0)
        [⟨1, 1, 1, 1, 1, 1, 1, 9, 0, 5, 60, "", "", "", "", ""⟩]).offsets 0 = some v ∧
      v ≤ jitterBound [⟨1, 1, 1, 1, 1, 1, 1, 9, 0, 5, 60, "", "", "", "", ""⟩] 0 ∧
      (jitterBound [⟨1, 1, 1, 1, 1, 1, 1, 9, 0, 5, 60, "", "", "", "", ""⟩] 0 = 0 → v = 0) := by
  obtain ⟨-, h2, -⟩ := C5_seed_idempotent_and_bounded
    [⟨1, 1, 1, 1, 1, 1, 1, 9, 0, 5, 60, "", "", "", "", ""⟩]
    (fun _ => 0) (fun _ => 0) DayState.empty (fun _ => Nat.zero_le _)
  exact h2 0 (by decide)

/-! ### Fire-check loop lemmas (`_check_and_fire_scheduled`) -/

theorem checkFrom_mono (offsets : Nat → Option Nat) (now : DateTime)
    (es : List ScheduleEntry) :
    ∀ i0 f i, f i = some true → (checkFrom offsets now es i0 f).1 i = some true := by
  induction es with
  | nil => intro i0 f i h; exact h
  | cons e rest ih =>
      intro i0 f i h
      by_cases hc : fireCondCode ⟨offsets, f⟩ now i0 e
      · simp only [checkFrom, if_pos hc]
        refine ih (i0 + 1) _ i ?_
        by_cases hi : i = i0
        · subst hi; exact updF_same _ _ _
        · rwa [updF_other _ _ hi]
      · simp only [checkFrom, if_neg hc]
        exact ih (i0 + 1) f i h

theorem checkFrom_events_ge (offsets : Nat → Option Nat) (now : DateTime)
    (es : List ScheduleEntry) :
    ∀ i0 f j, j ∈ (checkFrom offsets now es i0 f).2 → i0 ≤ j := by
  induction es with
  | nil => intro i0 f j h; simp [checkFrom] at h
  | cons e rest ih =>
      intro i0 f j h
      by_cases hc : fireCondCode ⟨offsets, f⟩ now i0 e
      · simp only [checkFrom, if_pos hc, List.mem_cons] at h
        rcases h with rfl | h
        · exact Nat.le_refl j
        · exact Nat.le_of_succ_le (ih (i0 + 1) _ j h)
      · simp only [checkFrom, if_neg hc] at h
        exact Nat.le_of_succ_le (ih (i0 + 1) f j h)

theorem checkFrom_fired (offsets : Nat → Option Nat) (now : DateTime)
    (es : List ScheduleEntry) :
    ∀ i0 f i, i ∈ (checkFrom offsets now es i0 f).2 →
      f i ≠ some true ∧ (checkFrom offsets now es i0 f).1 i = some true := by
  induction es with
  | nil => intro i0 f i h; simp [checkFrom] at h
  | cons e rest ih =>
      intro i0 f i h
      by_cases hc : fireCondCode ⟨offsets, f⟩ now i0 e
      · simp only [checkFrom, if_pos hc, List.mem_cons] at h ⊢
        rcases h with rfl | h
        · constructor
          · intro hft
            have h21 : truthyOpt (f i) = false := hc.2.1
            rw [hft] at h21
            simp at h21
          · exact checkFrom_mono offsets now rest (i + 1) _ i (updF_same _ _ _)
        · have hge := checkFrom_events_ge offsets now rest (i0 + 1) _ i h
          have hne : i ≠ i0 := by omega
          have := ih (i0 + 1) _ i h
          rw [updF_other _ _ hne] at this
          exact this
      · simp only [checkFrom, if_neg hc] at h ⊢
        exact ih (i0 + 1) f i h

theorem checkFrom_count (offsets : Nat → Option Nat) (now : DateTime)
    (es : List ScheduleEntry) :
    ∀ i0 f i, ((checkFrom offsets now es i0 f).2).count i ≤ 1 := by
  induction es with
  | nil => intro i0 f i; simp [checkFrom]
  | cons e rest ih =>
      intro i0 f i
      by_cases hc : fireCondCode ⟨offsets, f⟩ now i0 e
      · simp only [checkFrom, if_pos hc]
        by_cases hi : i0 = i
        · subst hi
          have hnot : i0 ∉ (checkFrom offsets now rest (i0 + 1) (updF f i0 (some true))).2 := by
            intro hmem
            have := checkFrom_events_ge offsets now rest (i0 + 1) _ i0 hmem
            omega
          rw [List.count_cons_self, List.count_eq_zero.mpr hnot]
        · rw [List.count_cons_of_ne (fun hh => hi hh.symm)]
          exact ih (i0 + 1) _ i
      · simp only [checkFrom, if_neg hc]
        exact ih (i0 + 1) f i

theorem ticksFrom_mono (schedule : List ScheduleEntry) (offsets : Nat → Option Nat) :
    ∀ nows f i, f i = some true → (ticksFrom schedule offsets nows f).1 i = some true := by
  intro nows
  induction nows with
  | nil => intro f i h; exact h
  | cons now rest ih =>
      intro f i h
      simp only [ticksFrom]
      exact ih _ i (checkFrom_mono offsets now schedule 0 f i h)

theorem ticksFrom_no_refire (schedule : List ScheduleEntry) (offsets : Nat → Option Nat) :
    ∀ nows f i, f i = some true → i ∉ (ticksFrom schedule offsets nows f).2 := by
  intro nows
  induction nows with
  | nil => intro f i h hmem; simp [ticksFrom] at hmem
  | cons now rest ih =>
      intro f i h hmem
      simp only [ticksFrom, List.mem_append] at hmem
      rcases hmem with hmem | hmem
      · exact (checkFrom_fired offsets now schedule 0 f i hmem).1 h
      · exact ih _ i (checkFrom_mono offsets now schedule 0 f i h) hmem

/-- C2 (amended): across any sequence of scheduler ticks on a fixed
date — with no intervening seeding call — each entry's fired flag is
monotone (once `True` it stays `True`), the entry fires at most once in
total, and an entry that fires was not fired before and is fired after,
so re-ticking after a fire never re-fires it.  (The unqualified claim is
false: a non-forced `_seed_today_offsets` call resets every fired flag to
`False`, see the counterexample.) -/
theorem C2_fired_monotone_over_ticks (schedule : List ScheduleEntry)
    (offsets : Nat → Option Nat) (nows : List DateTime) (f : Nat → Option Bool) (i : Nat) :
    (f i = some true → (ticksFrom schedule offsets nows f).1 i = some true) ∧
    ((ticksFrom schedule offsets nows f).2).count i ≤ 1 ∧
    (i ∈ (ticksFrom schedule offsets nows f).2 →
      f i ≠ some true ∧ (ticksFrom schedule offsets nows f).1 i = some true) := by
  refine ⟨ticksFrom_mono schedule offsets nows f i, ?_, ?_⟩
  · induction nows generalizing f with
    | nil => simp [ticksFrom]
    | cons now rest ih =>
        simp only [ticksFrom, List.count_append]
        by_cases hmem : i ∈ (checkFrom offsets now schedule 0 f).2
        · have hfired := (checkFrom_fired offsets now schedule 0 f i hmem).2
          have hzero : i ∉ (ticksFrom schedule offsets rest
              (checkFrom offsets now schedule 0 f).1).2 :=
            ticksFrom_no_refire schedule offsets rest _ i hfired
          rw [List.count_eq_zero.mpr hzero]
          have := checkFrom_count offsets now schedule 0 f i
          omega
        · rw [List.count_eq_zero.mpr hmem]
          simpa using ih _
  · induction nows generalizing f with
    | nil => intro h; simp [ticksFrom] at h
    | cons now rest ih =>
        intro hmem
        simp only [ticksFrom, List.mem_append] at hmem
        rcases hmem with hmem | hmem
        · obtain ⟨hnot, hset⟩ := checkFrom_fired offsets now schedule 0 f i hmem
          exact ⟨hnot, ticksFrom_mono schedule offsets rest _ i hset⟩
        · obtain ⟨hnot, hset⟩ := ih _ hmem
          refine ⟨?_, hset⟩
          intro hf
          exact hnot (checkFrom_mono offsets now schedule 0 f i hf)

theorem C2_fired_monotone_over_ticks_witness :
    (ticksFrom [⟨1, 1, 1, 1, 1, 1, 1, 9, 0, 0, 60, "", "", "", "", ""⟩] (fun _ => some 0)
        [⟨0, 9, 0, 0⟩, ⟨0, 9, 0, 1⟩] (fun _ => some true)).1 0 = some true ∧
    ((ticksFrom [⟨1, 1, 1, 1, 1, 1, 1, 9, 0, 0, 60, "", "", "", "", ""⟩] (fun _ => some 0)
        [⟨0, 9, 0, 0⟩, ⟨0, 9, 0, 1⟩] (fun _ => some false)).2).count 0 ≤ 1 ∧
    ((fun _ => some false : Nat → Option Bool) 0 ≠ some true ∧
      (ticksFrom [⟨1, 1, 1, 1, 1, 1, 1, 9, 0, 0, 60, "", "", "", "", ""⟩] (fun _ => some 0)
        [⟨0, 9, 0, 0⟩, ⟨0, 9, 0, 1⟩] (fun _ => some false)).1 0 = some true) :=
  ⟨(C2_fired_monotone_over_ticks [⟨1, 1, 1, 1, 1, 1, 1, 9, 0, 0, 60, "", "", "", "", ""⟩]
      (fun _ => some 0) [⟨0, 9, 0, 0⟩, ⟨0, 9, 0, 1⟩] (fun _ => some true) 0).1 rfl,
   (C2_fired_monotone_over_ticks [⟨1, 1, 1, 1, 1, 1, 1, 9, 0, 0, 60, "", "", "", "", ""⟩]
      (fun _ => some 0) [⟨0, 9, 0, 0⟩, ⟨0, 9, 0, 1⟩] (fun _ => some false) 0).2.1,
   (C2_fired_monotone_over_ticks [⟨1, 1, 1, 1, 1, 1, 1, 9, 0, 0, 60, "", "", "", "", ""⟩]
      (fun _ => some 0) [⟨0, 9, 0, 0⟩, ⟨0, 9, 0, 1⟩] (fun _ => some false) 0).2.2
      (by decide)⟩

/-- C2 (counterexample to the unqualified claim): after an entry fires,
a further (non-forced) `_seed_today_offsets` call on the same date
resets its fired flag from `True` back to `False` — the flag is not
monotone across "any sequence of scheduler ticks and seeding calls". -/
theorem C2_seed_resets_fired_flag :
    (check_and_fire_scheduled [⟨1, 1, 1, 1, 1, 1, 1, 9, 0, 0, 60, "", "", "", "", ""⟩]
        (seed_today_offsets_force (fun _ => 0)
          [⟨1, 1, 1, 1, 1, 1, 1, 9, 0, 0, 60, "", "", "", "", ""⟩])
        ⟨0, 9, 0, 0⟩).1 0 = some true ∧
    (seed_today_offsets (fun _ => 0) [⟨1, 1, 1, 1, 1, 1, 1, 9, 0, 0, 60, "", "", "", "", ""⟩]
        ⟨(seed_today_offsets_force (fun _ => 0)
            [⟨1, 1, 1, 1, 1, 1, 1, 9, 0, 0, 60, "", "", "", "", ""⟩]).offsets,
          (check_and_fire_scheduled [⟨1, 1, 1, 1, 1, 1, 1, 9, 0, 0, 60, "", "", "", "", ""⟩]
              (seed_today_offsets_force (fun _ => 0)
                [⟨1, 1, 1, 1, 1, 1, 1, 9, 0, 0, 60, "", "", "", "", ""⟩])
              ⟨0, 9, 0, 0⟩).1⟩).fired 0 = some false := by
  constructor
  · rfl
  · rfl

example :
    run_steps_chain id [[("WAIT", "2")]] 0 ⟨true, some "A", Option.none⟩ =
      (⟨true, some "A", some (120, 1)⟩, StepEffects.none, .waiting 120 1) := by decide

example :
    run_steps_chain id [[("PLAY", "a.mp4")], [("WAIT", "2")]] 0 ⟨true, some "A", Option.none⟩ =
      (⟨true, some "A", Option.none⟩, ⟨["a.mp4"], []⟩, .deferred 1) := by decide

/-- C6 (counterexample to the claim as stated): for the step
`{"WAIT": "2"}` the code arms a timer of 120 seconds, not 2 — the WAIT
value is interpreted as minutes (`seconds = minutes * 60`, and the log
line reads "Waiting 2 minute(s)"). -/
theorem C6_wait_uses_minutes_not_seconds :
    (run_steps_chain id [[("WAIT", "2")]] 0
      ⟨false, Option.none, Option.none⟩).2.2 = .waiting 120 1 ∧ (120 : Nat) ≠ 2 := by
  decide

/-- C6 (amended): on reaching a `WAIT` step at index `k` whose value
parses to the integer `n`, `_run_steps_chain` suspends the chain — no
effect is emitted and no immediate continuation is scheduled — replaces
any earlier pending step timer with a fresh one of `60 * n` seconds
(the WAIT value denotes minutes) whose continuation is step `k + 1`, and
`_after_wait_continue` resumes execution exactly at step `k + 1` with the
timer handle cleared. -/
theorem C6_wait_arms_minutes_timer (expandRandom : String → String)
    (steps : List ScriptStep) (idx : Nat) (s : ActionState) (op val : String)
    (hstep : steps.get? idx = some [(op, val)]) (hop : opUpper op = "WAIT") :
    run_steps_chain expandRandom steps idx s =
      ({ s with step_timer := some (waitValueMinutes val * 60, idx + 1) },
       StepEffects.none, .waiting (waitValueMinutes val * 60) (idx + 1)) ∧
    (∀ s', after_wait_continue expandRandom steps (idx + 1) s' =
      run_steps_chain expandRandom steps (idx + 1) { s' with step_timer := Option.none }) := by
  have hlt : idx < steps.length := (List.get?_eq_some.mp hstep).1
  have hnle : ¬ steps.length ≤ idx := Nat.not_le.mpr hlt
  constructor
  · simp only [run_steps_chain, hnle, if_false, hstep, hop]
    rfl
  · intro s'
    rfl

theorem C6_wait_arms_minutes_timer_witness :
    run_steps_chain id [[("WAIT", "2")]] 0 ⟨false, Option.none, some (7, 9)⟩ =
      (⟨false, Option.none, some (120, 1)⟩, StepEffects.none, .waiting 120 1) ∧
    after_wait_continue id [[("WAIT", "2")]] 1 ⟨false, Option.none, some (120, 1)⟩ =
      run_steps_chain id [[("WAIT", "2")]] 1 ⟨false, Option.none, Option.none⟩ := by
  have h := C6_wait_arms_minutes_timer id [[("WAIT", "2")]] 0
    ⟨false, Option.none, some (7, 9)⟩ "WAIT" "2" rfl (by decide)
  have hval : waitValueMinutes "2" * 60 = 120 := by decide
  constructor
  · rw [h.1, hval]
  · exact h.2 ⟨false, Option.none, some (120, 1)⟩

/-! ### Playback queue lemmas -/

theorem play_file_hit (ex : String → Bool) (path : String) (σ : QState)
    (hp : path.isEmpty = false) (hex : ex path = true) :
    play_file ex path σ =
      { state := { σ with playing := true }, played := [path], went_idle := false } := by
  rw [play_file]
  simp [hp, hex]

theorem play_file_miss (ex : String → Bool) (path : String) (σ : QState)
    (hmiss : ex path = false) :
    play_file ex path σ = try_play_next_in_queue ex σ := by
  rw [play_file]
  simp [hmiss]

theorem try_play_next_nil (ex : String → Bool) (σ : QState) (hq : σ.queue = []) :
    try_play_next_in_queue ex σ =
      { state := { σ with playing := false }, played := [], went_idle := true } := by
  rw [try_play_next_in_queue]
  split
  · rename_i q rest hq'
    rw [hq] at hq'
    cases hq'
  · rfl

theorem try_play_next_cons (ex : String → Bool) (σ : QState) (q : String)
    (rest : List String) (hq : σ.queue = q :: rest) :
    try_play_next_in_queue ex σ = play_file ex q { σ with queue := rest } := by
  rw [try_play_next_in_queue]
  split
  · rename_i q' rest' hq'
    rw [hq] at hq'
    cases hq'
    rfl
  · rename_i hq'
    rw [hq] at hq'
    cases hq'

theorem try_play_next_played_exist (ex : String → Bool) :
    ∀ (l : List String) (σ : QState), σ.queue = l →
      ∀ x ∈ (try_play_next_in_queue ex σ).played, ex x = true := by
  intro l
  induction l with
  | nil =>
      intro σ hq x hx
      rw [try_play_next_nil ex σ hq] at hx
      simp at hx
  | cons q rest ih =>
      intro σ hq x hx
      rw [try_play_next_cons ex σ q rest hq] at hx
      by_cases hex : ex q = true
      · by_cases hqe : q.isEmpty = true
        · rw [play_file] at hx
          simp [hqe] at hx
          exact ih { σ with queue := rest } rfl x hx
        · rw [play_file_hit ex q _ (Bool.of_not_eq_true hqe) hex] at hx
          simp at hx
          subst hx
          exact hex
      · have hmiss : ex q = false := Bool.of_not_eq_true hex
        rw [play_file_miss ex q _ hmiss] at hx
        exact ih { σ with queue := rest } rfl x hx

/-- C7: with an existing, nonempty path: enqueueing while idle hands the
path straight to the player and sets `playing`; enqueueing during
playback appends it to the queue tail; a finished/failed playback pops
the head of a non-empty queue and plays it (FIFO), and with an empty
queue clears `playing` and returns the display to the idle clock. -/
theorem C7_queue_fifo (ex : String → Bool) (σ : QState) (p : String)
    (hp : p.isEmpty = false) (hex : ex p = true) :
    (σ.playing = false → enqueue_file ex p σ =
      { state := { σ with playing := true }, played := [p], went_idle := false }) ∧
    (σ.playing = true → enqueue_file ex p σ =
      { state := { σ with queue := σ.queue ++ [p] }, played := [], went_idle := false }) ∧
    (∀ q rest, σ.queue = q :: rest → q.isEmpty = false → ex q = true →
      on_playback_done ex σ =
        { state := { σ with queue := rest, playing := true }, played := [q],
          went_idle := false }) ∧
    (σ.queue = [] → on_playback_done ex σ =
      { state := { σ with playing := false }, played := [], went_idle := true }) := by
  refine ⟨?_, ?_, ?_, ?_⟩
  · intro hplay
    unfold enqueue_file
    rw [play_file_hit ex p σ hp hex]
    simp [hp, hex, hplay]
  · intro hplay
    unfold enqueue_file
    simp [hp, hex, hplay]
  · intro q rest hq hqe hqx
    unfold on_playback_done
    rw [try_play_next_cons ex { σ with playing := false } q rest (by simpa using hq),
      play_file_hit ex q _ hqe hqx]
  · intro hq
    unfold on_playback_done
    rw [try_play_next_nil ex { σ with playing := false } (by simpa using hq)]

theorem C7_queue_fifo_witness :
    (enqueue_file (fun x => decide (x = "a" ∨ x = "b")) "a" ⟨[], false⟩ =
      { state := ⟨[], true⟩, played := ["a"], went_idle := false }) ∧
    (enqueue_file (fun x => decide (x = "a" ∨ x = "b")) "b" ⟨["a"], true⟩ =
      { state := ⟨["a", "b"], true⟩, played := [], went_idle := false }) ∧
    (on_playback_done (fun x => decide (x = "a" ∨ x = "b")) ⟨["b"], true⟩ =
      { state := ⟨[], true⟩, played := ["b"], went_idle := false }) ∧
    (on_playback_done (fun x => decide (x = "a" ∨ x = "b")) ⟨[], true⟩ =
      { state := ⟨[], false⟩, played := [], went_idle := true }) := by
  refine ⟨?_, ?_, ?_, ?_⟩
  · exact (C7_queue_fifo (fun x => decide (x = "a" ∨ x = "b")) ⟨[], false⟩ "a"
      rfl (by decide)).1 rfl
  · exact (C7_queue_fifo (fun x => decide (x = "a" ∨ x = "b")) ⟨["a"], true⟩ "b"
      rfl (by decide)).2.1 rfl
  · exact (C7_queue_fifo (fun x => decide (x = "a" ∨ x = "b")) ⟨["b"], true⟩ "a"
      rfl (by decide)).2.2.1 "b" [] rfl rfl (by decide)
  · exact (C7_queue_fifo (fun x => decide (x = "a" ∨ x = "b")) ⟨[], true⟩ "a"
      rfl (by decide)).2.2.2 rfl

/-- C8 (counterexample to the claim as stated): enqueueing a missing
path is a pure no-op — at the startup state (empty queue, idle) the code
returns with no state change and no idle-display signal, whereas
"handled as a playback failure" (the behaviour of
`try_play_next_in_queue`, which every real playback failure goes
through) would emit the return-to-idle signal; the enqueue path never
calls the failure handler at all. -/
theorem C8_enqueue_missing_is_noop :
    enqueue_file (fun _ => false) "missing.mp4" ⟨[], false⟩ =
      { state := ⟨[], false⟩, played := [], went_idle := false } ∧
    try_play_next_in_queue (fun _ => false) ⟨[], false⟩ =
      { state := ⟨[], false⟩, played := [], went_idle := true } ∧
    enqueue_file (fun _ => false) "missing.mp4" ⟨[], false⟩ ≠
      try_play_next_in_queue (fun _ => false) ⟨[], false⟩ := by
  have h1 : enqueue_file (fun _ => false) "missing.mp4" ⟨[], false⟩ =
      { state := ⟨[], false⟩, played := [], went_idle := false } := by
    unfold enqueue_file
    simp
  have h2 : try_play_next_in_queue (fun _ => false) ⟨[], false⟩ =
      { state := ⟨[], false⟩, played := [], went_idle := true } :=
    try_play_next_nil _ _ rfl
  refine ⟨h1, h2, ?_⟩
  rw [h1, h2]
  simp

/-- C8 (amended): a missing playback path is never handed to the media
player.  A direct `play_file` of a missing path does behave as a
playback failure: it falls through to `try_play_next_in_queue`, which
pops and plays the head of a non-empty queue or goes idle (and every
path it ever plays exists).  `enqueue_file` of a missing path, however,
only logs and returns: queue, playing flag and display are left exactly
as they were. -/
theorem C8_missing_path_handling (ex : String → Bool) (σ : QState) (p : String)
    (hmiss : ex p = false) :
    (enqueue_file ex p σ = { state := σ, played := [], went_idle := false }) ∧
    (play_file ex p σ = try_play_next_in_queue ex σ) ∧
    (p ∉ (play_file ex p σ).played) ∧
    (∀ q rest, σ.queue = q :: rest → q.isEmpty = false → ex q = true →
      try_play_next_in_queue ex σ =
        { state := { σ with queue := rest, playing := true }, played := [q],
          went_idle := false }) ∧
    (σ.queue = [] → try_play_next_in_queue ex σ =
      { state := { σ with playing := false }, played := [], went_idle := true }) := by
  refine ⟨?_, play_file_miss ex p σ hmiss, ?_, ?_, ?_⟩
  · unfold enqueue_file
    simp [hmiss]
  · intro hmem
    have := try_play_next_played_exist ex σ.queue σ rfl p
      (by rwa [play_file_miss ex p σ hmiss] at hmem)
    rw [hmiss] at this
    cases this
  · intro q rest hq hqe hqx
    rw [try_play_next_cons ex σ q rest hq, play_file_hit ex q _ hqe hqx]
  · intro hq
    rw [try_play_next_nil ex σ hq]

theorem C8_missing_path_handling_witness :
    (enqueue_file (fun x => decide (x = "b")) "m" ⟨["b"], true⟩ =
      { state := ⟨["b"], true⟩, played := [], went_idle := false }) ∧
    (play_file (fun x => decide (x = "b")) "m" ⟨["b"], true⟩ =
      try_play_next_in_queue (fun x => decide (x = "b")) ⟨["b"], true⟩) ∧
    ("m" ∉ (play_file (fun x => decide (x = "b")) "m" ⟨["b"], true⟩).played) ∧
    (try_play_next_in_queue (fun x => decide (x = "b")) ⟨["b"], true⟩ =
      { state := ⟨[], true⟩, played := ["b"], went_idle := false }) := by
  obtain ⟨h1, h2, h3, h4, -⟩ :=
    C8_missing_path_handling (fun x => decide (x = "b")) ⟨["b"], true⟩ "m" (by decide)
  exact ⟨h1, h2, h3, h4 "b" [] rfl rfl (by decide)⟩

/-! ### Manual trigger lemmas -/

theorem pmao_last_trigger_other (actions : String → Option (List ScriptStep))
    (name : String) (now : Int) (s : ManualState) {nm2 : String} (hne : nm2 ≠ name) :
    (play_manual_action_once actions name now s).1.last_trigger nm2 =
      s.last_trigger nm2 := by
  unfold play_manual_action_once
  by_cases hd : debounce_check s name now = true
  · simp [hd]
  · simp only [Bool.not_eq_true] at hd
    by_cases hr : s.interp.action_running = true ∧ s.interp.current_action_name = some name
    · simp [hd, hr]
    · simp [hd, hr, hne]

theorem pmao_started_last_trigger (actions : String → Option (List ScriptStep))
    (name : String) (now : Int) (s : ManualState)
    (h : (play_manual_action_once actions name now s).2 = true) :
    (play_manual_action_once actions name now s).1.last_trigger name = some now := by
  unfold play_manual_action_once at h ⊢
  by_cases hd : debounce_check s name now = true
  · simp [hd] at h
  · simp only [Bool.not_eq_true] at hd
    by_cases hr : s.interp.action_running = true ∧ s.interp.current_action_name = some name
    · simp [hd, hr] at h
    · simp [hd, hr]

theorem pmao_interp_cases (actions : String → Option (List ScriptStep))
    (name : String) (now : Int) (s : ManualState) :
    (play_manual_action_once actions name now s).1.interp = s.interp ∨
    (play_manual_action_once actions name now s).1.interp =
      { s.interp with action_running := true, current_action_name := some name } := by
  unfold play_manual_action_once
  by_cases hd : debounce_check s name now = true
  · left; simp [hd]
  · simp only [Bool.not_eq_true] at hd
    by_cases hr : s.interp.action_running = true ∧ s.interp.current_action_name = some name
    · left; simp [hd, hr]
    · unfold run_action
      cases hact : actions name with
      | none => left; simp [hd, hr, hact]
      | some steps =>
          cases steps with
          | nil => left; simp [hd, hr, hact]
          | cons st sts => right; simp [hd, hr, hact]

theorem pmao_debounced (actions : String → Option (List ScriptStep))
    (name : String) (now : Int) (s : ManualState)
    (hd : debounce_check s name now = true) :
    play_manual_action_once actions name now s = (s, false) := by
  unfold play_manual_action_once
  simp [hd]

theorem pmao_starts (actions : String → Option (List ScriptStep))
    (name : String) (now : Int) (s : ManualState)
    (hd : debounce_check s name now = false)
    (hr : ¬(s.interp.action_running = true ∧ s.interp.current_action_name = some name))
    (st : ScriptStep) (sts : List ScriptStep) (hact : actions name = some (st :: sts)) :
    (play_manual_action_once actions name now s).2 = true := by
  unfold play_manual_action_once
  rw [hd]
  simp only [Bool.false_eq_true, if_false, if_neg hr]
  simp [run_action, hact]

/-- C9: two manual triggers of the same action name less than one second
apart start the action at most once — if the first trigger started it,
the second is rejected by the per-name debounce record; a trigger of a
different name is neither debounced by the first name's record (its own
record is untouched) nor blocked, and does start its action. -/
theorem C9_manual_debounce (actions : String → Option (List ScriptStep))
    (s : ManualState) (name nm2 : String) (t1 t2 : Int)
    (hwin : t2 - t1 < 1000000) :
    (¬((play_manual_action_once actions name t1 s).2 = true ∧
        (play_manual_action_once actions name t2
          (play_manual_action_once actions name t1 s).1).2 = true)) ∧
    (nm2 ≠ name →
      (play_manual_action_once actions name t1 s).1.last_trigger nm2 =
        s.last_trigger nm2) ∧
    (nm2 ≠ name → s.last_trigger nm2 = Option.none →
      ¬(s.interp.action_running = true ∧ s.interp.current_action_name = some nm2) →
      ∀ st sts, actions nm2 = some (st :: sts) →
        (play_manual_action_once actions nm2 t2
          (play_manual_action_once actions name t1 s).1).2 = true) := by
  refine ⟨?_, fun hne => pmao_last_trigger_other actions name t1 s hne, ?_⟩
  · rintro ⟨h1, h2⟩
    have hl := pmao_started_last_trigger actions name t1 s h1
    have hd : debounce_check (play_manual_action_once actions name t1 s).1 name t2 = true := by
      unfold debounce_check
      rw [hl]
      simpa using hwin
    rw [pmao_debounced actions name t2 _ hd] at h2
    cases h2
  · intro hne hnone hnr st sts hact
    have hl : (play_manual_action_once actions name t1 s).1.last_trigger nm2 =
        Option.none :=
      (pmao_last_trigger_other actions name t1 s hne).trans hnone
    have hd : debounce_check (play_manual_action_once actions name t1 s).1 nm2 t2 = false := by
      unfold debounce_check
      rw [hl]
    have hr : ¬((play_manual_action_once actions name t1 s).1.interp.action_running = true ∧
        (play_manual_action_once actions name t1 s).1.interp.current_action_name =
          some nm2) := by
      rcases pmao_interp_cases actions name t1 s with hcase | hcase
      · rw [hcase]; exact hnr
      · rw [hcase]
        rintro ⟨-, hcur⟩
        simp at hcur
        exact hne hcur.symm
    exact pmao_starts actions nm2 t2 _ hd hr st sts hact

theorem C9_manual_debounce_witness :
    ((play_manual_action_once (fun _ => some [[("PLAY", "a")]]) "ACT_X" 0
        ⟨fun _ => Option.none, ⟨false, Option.none, Option.none⟩⟩).2 = true →
      (play_manual_action_once (fun _ => some [[("PLAY", "a")]]) "ACT_X" 500000
        (play_manual_action_once (fun _ => some [[("PLAY", "a")]]) "ACT_X" 0
          ⟨fun _ => Option.none, ⟨false, Option.none, Option.none⟩⟩).1).2 = false) ∧
    ((play_manual_action_once (fun _ => some [[("PLAY", "a")]]) "ACT_Y" 500000
        (play_manual_action_once (fun _ => some [[("PLAY", "a")]]) "ACT_X" 0
          ⟨fun _ => Option.none, ⟨false, Option.none, Option.none⟩⟩).1).2 = true) := by
  have h := C9_manual_debounce (fun _ => some [[("PLAY", "a")]])
    ⟨fun _ => Option.none, ⟨false, Option.none, Option.none⟩⟩ "ACT_X" "ACT_Y" 0 500000
    (by omega)
  constructor
  · intro h1
    cases hb : (play_manual_action_once (fun _ => some [[("PLAY", "a")]]) "ACT_X" 500000
        (play_manual_action_once (fun _ => some [[("PLAY", "a")]]) "ACT_X" 0
          ⟨fun _ => Option.none, ⟨false, Option.none, Option.none⟩⟩).1).2 with
    | false => rfl
    | true => exact absurd ⟨h1, hb⟩ h.1
  · exact h.2.2 (by decide) rfl (by simp) [("PLAY", "a")] [] rfl

/-- C10: a manual trigger whose name equals the tracked running action's
name is rejected even when the 1-second debounce window has long passed,
while the scheduler path (`run_action`, as called by
`_check_and_fire_scheduled`) has no such guard: it starts the action and
overwrites the tracked name even though another action is running. -/
theorem C10_running_name_blocks_manual_only (actions : String → Option (List ScriptStep))
    (s : ManualState) (name : String) (t t0 : Int)
    (hrun : s.interp.action_running = true)
    (hcur : s.interp.current_action_name = some name)
    (hdeb : s.last_trigger name = some t0)
    (hold : 1000000 ≤ t - t0) :
    play_manual_action_once actions name t s = (s, false) ∧
    (∀ st sts, actions name = some (st :: sts) →
      run_action actions name s.interp =
        ({ s.interp with action_running := true, current_action_name := some name },
          true)) := by
  have hd : debounce_check s name t = false := by
    unfold debounce_check
    rw [hdeb]
    simp
    omega
  constructor
  · unfold play_manual_action_once
    rw [hd]
    simp only [Bool.false_eq_true, if_false]
    rw [if_pos ⟨hrun, hcur⟩]
  · intro st sts hact
    unfold run_action
    rw [hact]

theorem C10_running_name_blocks_manual_only_witness :
    play_manual_action_once (fun _ => some [[("PLAY", "a")]]) "ACT_X" 5000000
      ⟨fun _ => some 0, ⟨true, some "ACT_X", Option.none⟩⟩ =
      (⟨fun _ => some 0, ⟨true, some "ACT_X", Option.none⟩⟩, false) ∧
    run_action (fun _ => some [[("PLAY", "a")]]) "ACT_X" ⟨true, some "ACT_X", Option.none⟩ =
      (⟨true, some "ACT_X", Option.none⟩, true) := by
  have h := C10_running_name_blocks_manual_only (fun _ => some [[("PLAY", "a")]])
    ⟨fun _ => some 0, ⟨true, some "ACT_X", Option.none⟩⟩ "ACT_X" 5000000 0
    rfl rfl rfl (by omega)
  exact ⟨h.1, h.2 [("PLAY", "a")] [] rfl⟩

end LPS
